import Mathlib

/-!
Shallow embedding of `src/cogs/general.py` (the `General` cog): the
`on_message` event handler (AFK clear / AFK notify / pull-request and
issue link expansion), the `afk` slash command's registry insert, and the
`PULL_HASH_REGEX`-driven reference extraction.

The Python regex is
  `(?:(?P<org>(?:[A-Za-z]|\d|-)+)/)?(?P<repo>(?:[A-Za-z]|\d|-)+)?(?:##)(?P<index>[0-9]+)`
Characters of the `org`/`repo` class are letters, digits and hyphen; the
separator `/` and the literal `##` are outside that class, so the greedy
backtracking match at a given start position is deterministic: the `org`
run must be the maximal class-run (followed by `/`), the `repo` run must be
the maximal class-run (followed by `##`), and `index` is the maximal digit
run. `findall` scans left to right for non-overlapping matches, advancing
one character after a failed attempt and past the match after a success,
exactly as Python's `re.findall` does.
-/

namespace Square2

/-- The character class `(?:[A-Za-z]|\d|-)` of the `org` and `repo` groups. -/
def isC (c : Char) : Bool := c.isAlpha || c.isDigit || c == '-'

/-- Match `(?P<repo>(?:[A-Za-z]|\d|-)+)?(?:##)(?P<index>[0-9]+)` at the head of
`s`; on success return (repo, index, rest-after-match). The `repo` group is the
maximal class-run (possibly empty, i.e. the optional group unmatched, which
Python's `findall` reports as `""`). -/
def matchRepoHash (s : List Char) : Option (String × String × List Char) :=
  let r := s.takeWhile isC
  match s.dropWhile isC with
  | '#' :: '#' :: rest2 =>
    let d := rest2.takeWhile Char.isDigit
    if d.isEmpty then none
    else some (⟨r⟩, ⟨d⟩, rest2.dropWhile Char.isDigit)
  | _ => none

/-- Attempt the whole pattern at the head of `s`; on success return the group
tuple `(org, repo, index)` (unmatched optional groups as `""`, as Python's
`findall` reports them) and the rest of the input after the match. If the
maximal class-run at the head is non-empty and followed by `/`, the `org`
group is forced to be that run: shortening it puts `/` at a class character,
and dropping it puts `##` where that run or the `/` stands, so no other
backtracking branch can succeed. -/
def tryMatch (s : List Char) : Option ((String × String × String) × List Char) :=
  let r1 := s.takeWhile isC
  match s.dropWhile isC with
  | '/' :: rest2 =>
    if r1.isEmpty then none
    else
      match matchRepoHash rest2 with
      | some (repo, idx, rest3) => some ((⟨r1⟩, repo, idx), rest3)
      | none => none
  | _ =>
    match matchRepoHash s with
    | some (repo, idx, rest3) => some (("", repo, idx), rest3)
    | none => none

/-- Left-to-right non-overlapping scan, with explicit fuel (one unit per
character of the original input, which suffices: every step consumes at least
one character — see `findallAux_fuel`). -/
def findallAux : Nat → List Char → List (String × String × String)
  | 0, _ => []
  | _ + 1, [] => []
  | fuel + 1, c :: cs =>
    match tryMatch (c :: cs) with
    | some (g, rest) => g :: findallAux fuel rest
    | none => findallAux fuel cs

/-- Python `PULL_HASH_REGEX.findall(content)`: the list of `(org, repo, index)` group
tuples of the non-overlapping matches, left to right. -/
def findall (s : List Char) : List (String × String × String) :=
  findallAux s.length s

/-- The helper `make_link(index, org, repo)` from `on_message`: empty (falsy) groups fall
back to the defaults `Pycord-Development` / `pycord`. -/
def make_link (index org repo : String) : String :=
  let org := if org = "" then "Pycord-Development" else org
  let repo := if repo = "" then "pycord" else repo
  "https://github.com/" ++ org ++ "/" ++ repo ++ "/pull/" ++ index

/-- The pipeline `list(set(make_link(index, org, repo) for ... in findall(content)))[:15]`.
Python's `set` deduplicates with unspecified iteration order; we model the
dedup with `List.dedup` (order-insensitive properties are unaffected). -/
def extractLinks (content : String) : List String :=
  (((findall content.data).map (fun g => make_link g.2.2 g.1 g.2.1)).dedup).take 15

/-- Angle-bracket wrapping `f"<{link}>"` applied when more than 2 links remain. -/
def wrapLink (l : String) : String := "<" ++ l ++ ">"

/-- The link list actually sent: wrapped iff more than 2 entries survive
dedup-and-truncate. -/
def replyLinks (content : String) : List String :=
  let links := extractLinks content
  if links.length > 2 then links.map wrapLink else links

/-- The reply text of the link-expansion phase: newline-joined links if any,
otherwise no reply. -/
def replyMessage (content : String) : Option String :=
  let links := replyLinks content
  if links.isEmpty then none else some (String.intercalate "\n" links)

/-! ## Data model: members, messages, the AFK registry -/

/-- A chat user as `on_message` sees one: id, bot flag, display name, and the
optional per-guild nickname (`member.nick`). -/
structure Member where
  id : Nat
  bot : Bool
  displayName : String
  nick : Option String
  deriving Repr, DecidableEq

/-- One inbound message: author, raw text content, resolved mention list. -/
structure Message where
  author : Member
  content : String
  mentions : List Member
  deriving Repr, DecidableEq

/-- The dict `self.bot.cache["afk"]`: a user-id → reason dict, modelled as an
association list in insertion order (the invariant `AfkInv` says keys are
unique, as they are in a dict). -/
abbrev AfkRegistry := List (Nat × String)

/-- Lookup `cache["afk"].get(uid)` (and `uid in cache["afk"].keys()` is `isSome`). -/
def afkGet (r : AfkRegistry) (uid : Nat) : Option String :=
  (r.find? (fun p => p.1 == uid)).map Prod.snd

/-- Deletion `del cache["afk"][uid]`: remove the (unique) entry with key `uid`. -/
def afkDelete (r : AfkRegistry) (uid : Nat) : AfkRegistry :=
  r.eraseP (fun p => p.1 == uid)

/-- Assignment `cache["afk"][uid] = reason`: dict assignment — replace in place if the
key exists, else append. -/
def afkInsert : AfkRegistry → Nat → String → AfkRegistry
  | [], uid, reason => [(uid, reason)]
  | p :: r, uid, reason =>
    if p.1 = uid then (uid, reason) :: r else p :: afkInsert r uid reason

/-- Registry invariant: at most one entry per user identifier. -/
def AfkInv (r : AfkRegistry) : Prop := (r.map Prod.fst).Nodup

instance (r : AfkRegistry) : Decidable (AfkInv r) := by
  unfold AfkInv; infer_instance

/-! ## The event handler -/

/-- Exceptions an outbound platform call may raise: `discord.HTTPException`
(the class `contextlib.suppress` is given) or anything else. -/
inductive ExcKind
  | httpException
  | otherError
  deriving Repr, DecidableEq

/-- Fault environment for the two cosmetic calls of the AFK-clear phase:
whether `message.add_reaction` raises, and whether `message.author.edit`
raises, and with which exception kind. `none` means the call succeeds. -/
structure Env where
  reactionError : Option ExcKind
  nickEditError : Option ExcKind
  deriving Repr, DecidableEq

/-- Outbound actions the handler performs. -/
inductive Action
  | addReaction (emoji : String)
  | editNick (userId : Nat) (newNick : String)
  | send (text : String)
  | reply (text : String)
  | respond (text : String)
  deriving Repr, DecidableEq

/-- The "\U0001f44b" wave emoji. -/
def waveEmoji : String := ⟨[Char.ofNat 0x1F44B]⟩

/-- The body of the mention loop: `if msg := cache["afk"].get(mention.id):`
— the walrus test is Python truthiness, so an empty reason sends nothing —
`await message.channel.send(f"{mention.display_name} is AFK: {msg}")`. -/
def notifyText (reg : AfkRegistry) (mem : Member) : Option String :=
  match afkGet reg mem.id with
  | some msg => if msg = "" then none else some (mem.displayName ++ " is AFK: " ++ msg)
  | none => none

/-- The AFK-notify phase: one `channel.send` per mention occurrence, in order. -/
def notifyPhase (reg : AfkRegistry) (mentions : List Member) : List Action :=
  (mentions.filterMap (notifyText reg)).map Action.send

/-- The link-expansion phase: `await message.reply("\n".join(links))` if any. -/
def linkPhase (content : String) : List Action :=
  match replyMessage content with
  | some t => [Action.reply t]
  | none => []

/-- The AFK-clear phase (lines 230–235): if the author has a registry entry,
delete it, add the wave reaction (NOT inside any `suppress` — a raised
exception propagates), and, if the author's nick starts with `"[AFK] "`,
strip the 6-character prefix inside `suppress(discord.HTTPException)` (only
that exception kind is swallowed). Returns (new registry, actions performed,
uncaught exception if one propagated). -/
def afkClearPhase (env : Env) (afk : AfkRegistry) (m : Message) :
    AfkRegistry × List Action × Option ExcKind :=
  match afkGet afk m.author.id with
  | none => (afk, [], none)
  | some _ =>
    let afk1 := afkDelete afk m.author.id
    match env.reactionError with
    | some e => (afk1, [], some e)
    | none =>
      let acts := [Action.addReaction waveEmoji]
      match m.author.nick with
      | some n =>
        if n.startsWith "[AFK] " then
          match env.nickEditError with
          | none => (afk1, acts ++ [Action.editNick m.author.id (n.drop 6)], none)
          | some ExcKind.httpException => (afk1, acts, none)
          | some ExcKind.otherError => (afk1, acts, some ExcKind.otherError)
        else (afk1, acts, none)
      | none => (afk1, acts, none)

/-- Result of one `on_message` invocation: the registry afterwards, the
actions performed, and the exception that propagated out of the handler,
if any (an uncaught exception aborts the phases after it). -/
structure HandlerResult where
  registry : AfkRegistry
  actions : List Action
  uncaught : Option ExcKind
  deriving Repr, DecidableEq

/-- The handler `General.on_message` (lines 224–255): bot short-circuit, then AFK clear,
AFK notify, and reference-link expansion in that order. -/
def on_message (env : Env) (afk : AfkRegistry) (m : Message) : HandlerResult :=
  if m.author.bot then ⟨afk, [], none⟩
  else
    match afkClearPhase env afk m with
    | (afk1, acts1, some e) => ⟨afk1, acts1, some e⟩
    | (afk1, acts1, none) =>
      ⟨afk1, acts1 ++ notifyPhase afk1 m.mentions ++ linkPhase m.content, none⟩

/-- The command `General.afk` (lines 216–222): respond, insert into the registry, and —
when `change_nick` and the display name is not already marked — request the
`"[AFK] "` nickname (its failure is swallowed by `suppress`, so it never
affects the registry; we model the success case's actions). -/
def afkCommand (reg : AfkRegistry) (author : Member) (reason : String)
    (change_nick : Bool) : AfkRegistry × List Action :=
  let acts := [Action.respond ("Set your AFK: " ++ reason)]
  let reg1 := afkInsert reg author.id reason
  if change_nick && !(author.displayName.startsWith "[AFK] ") then
    (reg1, acts ++ [Action.editNick author.id ("[AFK] " ++ author.displayName)])
  else (reg1, acts)

/-- Projection used to state which replies the handler sent. -/
def sendTextOf : Action → Option String
  | Action.send t => some t
  | _ => none

/-- Is this action the wave reaction? -/
def isWaveAction : Action → Bool
  | Action.addReaction e => e == waveEmoji
  | _ => false

/-- Is this action a nickname edit? -/
def isNickEditAction : Action → Bool
  | Action.editNick _ _ => true
  | _ => false

/-- The nickname-edit action list of a successful AFK-clear phase: one edit
stripping the 6-character marker when the author's nick carries it, else
nothing. -/
def nickEditActs (m : Message) : List Action :=
  match m.author.nick with
  | some n =>
    if n.startsWith "[AFK] " then [Action.editNick m.author.id (n.drop 6)] else []
  | none => []

/-! ## Supporting lemmas -/

theorem matchRepoHash_rest_lt {s rest : List Char} {repo idx : String}
    (h : matchRepoHash s = some (repo, idx, rest)) : rest.length < s.length := by
  have h3 : (s.dropWhile isC).length ≤ s.length := (List.dropWhile_sublist _).length_le
  simp only [matchRepoHash] at h
  split at h
  · rename_i rest2 heq
    by_cases he : (rest2.takeWhile Char.isDigit).isEmpty
    · rw [if_pos he] at h; simp at h
    · rw [if_neg he] at h
      simp only [Option.some.injEq, Prod.mk.injEq] at h
      have hrest : rest = rest2.dropWhile Char.isDigit := h.2.2.symm
      have h1 : (rest2.takeWhile Char.isDigit).length
          + (rest2.dropWhile Char.isDigit).length = rest2.length := by
        rw [← List.length_append, List.takeWhile_append_dropWhile]
      have h2 : 1 ≤ (rest2.takeWhile Char.isDigit).length := by
        rcases hw : rest2.takeWhile Char.isDigit with _ | _
        · rw [hw] at he; simp at he
        · simp
      rw [heq] at h3
      simp only [List.length_cons] at h3
      subst hrest
      omega
  · simp at h

theorem tryMatch_rest_lt {s rest : List Char} {g : String × String × String}
    (h : tryMatch s = some (g, rest)) : rest.length < s.length := by
  have h3 : (s.dropWhile isC).length ≤ s.length := (List.dropWhile_sublist _).length_le
  simp only [tryMatch] at h
  split at h
  · rename_i rest2 heq
    by_cases he : (s.takeWhile isC).isEmpty
    · rw [if_pos he] at h; simp at h
    · rw [if_neg he] at h
      split at h
      · rename_i repo idx rest3 hm
        simp only [Option.some.injEq, Prod.mk.injEq] at h
        have hlt : rest3.length < rest2.length := matchRepoHash_rest_lt hm
        rw [heq] at h3
        simp only [List.length_cons] at h3
        have hrest : rest = rest3 := h.2.symm
        subst hrest
        omega
      · simp at h
  · split at h
    · rename_i repo idx rest3 hm
      simp only [Option.some.injEq, Prod.mk.injEq] at h
      have hlt : rest3.length < s.length := matchRepoHash_rest_lt hm
      have hrest : rest = rest3 := h.2.symm
      subst hrest
      omega
    · simp at h

/-- The fuel given to `findallAux` is irrelevant as long as it covers the
input length, so `findall`'s `s.length` is exact. -/
theorem findallAux_fuel : ∀ (f1 f2 : Nat) (s : List Char), s.length ≤ f1 → s.length ≤ f2 →
    findallAux f1 s = findallAux f2 s := by
  intro f1
  induction f1 using Nat.strong_induction_on with
  | _ f1 ih =>
    intro f2 s h1 h2
    cases s with
    | nil => cases f1 <;> cases f2 <;> rfl
    | cons c cs =>
      cases f1 with
      | zero => simp at h1
      | succ fa =>
        cases f2 with
        | zero => simp at h2
        | succ fb =>
          rcases hm : tryMatch (c :: cs) with _ | ⟨g, rest⟩ <;>
            simp only [findallAux, hm]
          · simp only [List.length_cons] at h1 h2
            exact ih fa (by omega) fb cs (by omega) (by omega)
          · have hlt := tryMatch_rest_lt hm
            simp only [List.length_cons] at h1 h2 hlt
            rw [ih fa (by omega) fb rest (by omega) (by omega)]

theorem afkGet_eq_none_iff (r : AfkRegistry) (uid : Nat) :
    afkGet r uid = none ↔ ∀ p ∈ r, p.1 ≠ uid := by
  unfold afkGet
  rw [Option.map_eq_none', List.find?_eq_none]
  simp

theorem afkGet_afkDelete_self {r : AfkRegistry} (uid : Nat) (hinv : AfkInv r) :
    afkGet (afkDelete r uid) uid = none := by
  induction r with
  | nil => rfl
  | cons p r ih =>
    unfold AfkInv at hinv
    simp only [List.map_cons, List.nodup_cons] at hinv
    by_cases h : p.1 = uid
    · unfold afkDelete
      rw [List.eraseP_cons_of_pos (by simp [h])]
      rw [afkGet_eq_none_iff]
      intro q hq hqe
      apply hinv.1
      rw [h, ← hqe]
      exact List.mem_map_of_mem Prod.fst hq
    · unfold afkDelete
      rw [List.eraseP_cons_of_neg (by simp [h])]
      unfold afkGet
      rw [List.find?_cons_of_neg _ (by simp [h])]
      exact ih hinv.2

theorem afkGet_afkDelete_ne {r : AfkRegistry} {v uid : Nat} (h : v ≠ uid) :
    afkGet (afkDelete r uid) v = afkGet r v := by
  induction r with
  | nil => rfl
  | cons p r ih =>
    by_cases hp : p.1 = uid
    · unfold afkDelete
      rw [List.eraseP_cons_of_pos (by simp [hp])]
      show afkGet r v = afkGet (p :: r) v
      unfold afkGet
      rw [List.find?_cons_of_neg _ (by simp [hp]; exact Ne.symm h)]
    · unfold afkDelete
      rw [List.eraseP_cons_of_neg (by simp [hp])]
      by_cases hv : p.1 = v
      · unfold afkGet
        rw [List.find?_cons_of_pos _ (by simp [hv]), List.find?_cons_of_pos _ (by simp [hv])]
      · unfold afkGet
        rw [List.find?_cons_of_neg _ (by simp [hv]), List.find?_cons_of_neg _ (by simp [hv])]
        exact ih

theorem keys_afkInsert (r : AfkRegistry) (uid : Nat) (reason : String) :
    (afkInsert r uid reason).map Prod.fst =
      if uid ∈ r.map Prod.fst then r.map Prod.fst else r.map Prod.fst ++ [uid] := by
  induction r with
  | nil => simp [afkInsert]
  | cons p r ih =>
    by_cases h : p.1 = uid
    · simp [afkInsert, h]
    · simp only [afkInsert, if_neg h, List.map_cons, ih]
      by_cases hm : uid ∈ r.map Prod.fst
      · simp [hm, Ne.symm h]
      · simp [hm, Ne.symm h]

theorem AfkInv_afkInsert {r : AfkRegistry} (uid : Nat) (reason : String)
    (hinv : AfkInv r) : AfkInv (afkInsert r uid reason) := by
  unfold AfkInv at hinv ⊢
  rw [keys_afkInsert]
  by_cases hm : uid ∈ r.map Prod.fst
  · rw [if_pos hm]; exact hinv
  · rw [if_neg hm]
    exact hinv.append (List.nodup_singleton uid) (by simp [hm])

theorem AfkInv_afkDelete {r : AfkRegistry} (uid : Nat) (hinv : AfkInv r) :
    AfkInv (afkDelete r uid) := by
  unfold AfkInv at hinv ⊢
  exact List.Nodup.sublist ((List.eraseP_sublist r).map Prod.fst) hinv

theorem afkClearPhase_noEntry {env : Env} {afk : AfkRegistry} {m : Message}
    (h : afkGet afk m.author.id = none) :
    afkClearPhase env afk m = (afk, [], none) := by
  unfold afkClearPhase
  rw [h]

theorem afkClearPhase_envOk {afk : AfkRegistry} {m : Message} {reason : String}
    (h : afkGet afk m.author.id = some reason) :
    afkClearPhase ⟨none, none⟩ afk m =
      (afkDelete afk m.author.id, Action.addReaction waveEmoji :: nickEditActs m, none) := by
  unfold afkClearPhase nickEditActs
  rw [h]
  cases m.author.nick with
  | none => rfl
  | some n =>
    by_cases hn : n.startsWith "[AFK] "
    · simp [hn]
    · simp [hn]

theorem afkClearPhase_envHttp {afk : AfkRegistry} {m : Message} {reason : String}
    (h : afkGet afk m.author.id = some reason) :
    afkClearPhase ⟨none, some ExcKind.httpException⟩ afk m =
      (afkDelete afk m.author.id, [Action.addReaction waveEmoji], none) := by
  unfold afkClearPhase
  rw [h]
  cases m.author.nick with
  | none => rfl
  | some n =>
    by_cases hn : n.startsWith "[AFK] "
    · simp [hn]
    · simp [hn]

theorem on_message_ok {env : Env} {afk : AfkRegistry} {m : Message}
    (hb : m.author.bot = false)
    (he : (afkClearPhase env afk m).2.2 = none) :
    on_message env afk m =
      ⟨(afkClearPhase env afk m).1,
        (afkClearPhase env afk m).2.1
          ++ notifyPhase (afkClearPhase env afk m).1 m.mentions
          ++ linkPhase m.content,
        none⟩ := by
  unfold on_message
  rw [if_neg (by simp [hb])]
  rcases hc : afkClearPhase env afk m with ⟨afk1, acts1, err⟩
  rw [hc] at he
  obtain rfl : err = none := he
  rfl

theorem on_message_registry (env : Env) (afk : AfkRegistry) (m : Message) :
    (on_message env afk m).registry
      = if m.author.bot then afk else (afkClearPhase env afk m).1 := by
  unfold on_message
  by_cases hb : m.author.bot = true
  · simp only [hb, if_true]
  · simp only [hb, if_false]
    rcases hc : afkClearPhase env afk m with ⟨afk1, acts1, err⟩
    cases err <;> rfl

theorem afkClearPhase_registry (env : Env) (afk : AfkRegistry) (m : Message) :
    (afkClearPhase env afk m).1 = afk ∨
      (afkClearPhase env afk m).1 = afkDelete afk m.author.id := by
  unfold afkClearPhase
  cases afkGet afk m.author.id with
  | none => exact Or.inl rfl
  | some r =>
    cases env.reactionError with
    | some e => exact Or.inr rfl
    | none =>
      cases m.author.nick with
      | none => exact Or.inr rfl
      | some n =>
        by_cases hn : n.startsWith "[AFK] "
        · cases env.nickEditError with
          | none => exact Or.inr (by simp [hn])
          | some e => cases e <;> exact Or.inr (by simp [hn])
        · exact Or.inr (by simp [hn])

theorem sendTextOf_notifyPhase (reg : AfkRegistry) (ms : List Member) :
    (notifyPhase reg ms).filterMap sendTextOf = ms.filterMap (notifyText reg) := by
  unfold notifyPhase
  rw [List.filterMap_map]
  show List.filterMap some (ms.filterMap (notifyText reg)) = _
  rw [List.filterMap_some]

theorem sendTextOf_linkPhase (c : String) :
    (linkPhase c).filterMap sendTextOf = [] := by
  unfold linkPhase
  cases replyMessage c <;> rfl

theorem mem_notifyPhase_send {reg : AfkRegistry} {ms : List Member} {a : Action}
    (h : a ∈ notifyPhase reg ms) : ∃ t, a = Action.send t := by
  unfold notifyPhase at h
  rcases List.mem_map.mp h with ⟨t, _, rfl⟩
  exact ⟨t, rfl⟩

theorem mem_linkPhase_reply {c : String} {a : Action}
    (h : a ∈ linkPhase c) : ∃ t, a = Action.reply t := by
  unfold linkPhase at h
  cases hr : replyMessage c <;> rw [hr] at h
  · simp at h
  · simp at h
    exact ⟨_, h⟩

theorem sendTextOf_nickEditActs (m : Message) :
    (nickEditActs m).filterMap sendTextOf = [] := by
  unfold nickEditActs
  cases m.author.nick with
  | none => rfl
  | some n => by_cases hn : n.startsWith "[AFK] " <;> simp [hn, sendTextOf]

theorem sendTextOf_clearActs (m : Message) :
    (Action.addReaction waveEmoji :: nickEditActs m).filterMap sendTextOf = [] := by
  rw [List.filterMap_cons_none (by rfl)]
  exact sendTextOf_nickEditActs m

theorem filterWave_notifyPhase (reg : AfkRegistry) (ms : List Member) :
    (notifyPhase reg ms).filter isWaveAction = [] := by
  rw [List.filter_eq_nil_iff]
  intro a ha
  rcases mem_notifyPhase_send ha with ⟨t, rfl⟩
  simp [isWaveAction]

theorem filterWave_linkPhase (c : String) :
    (linkPhase c).filter isWaveAction = [] := by
  unfold linkPhase
  cases replyMessage c <;> rfl

theorem filterWave_nickEditActs (m : Message) :
    (nickEditActs m).filter isWaveAction = [] := by
  unfold nickEditActs
  cases m.author.nick with
  | none => rfl
  | some n => by_cases hn : n.startsWith "[AFK] " <;> simp [hn, isWaveAction]

theorem filterNotNickEdit_notifyPhase (reg : AfkRegistry) (ms : List Member) :
    (notifyPhase reg ms).filter (fun a => !isNickEditAction a) = notifyPhase reg ms := by
  rw [List.filter_eq_self]
  intro a ha
  rcases mem_notifyPhase_send ha with ⟨t, rfl⟩
  rfl

theorem filterNotNickEdit_linkPhase (c : String) :
    (linkPhase c).filter (fun a => !isNickEditAction a) = linkPhase c := by
  unfold linkPhase
  cases replyMessage c <;> rfl

theorem filterNotNickEdit_nickEditActs (m : Message) :
    (nickEditActs m).filter (fun a => !isNickEditAction a) = [] := by
  unfold nickEditActs
  cases m.author.nick with
  | none => rfl
  | some n => by_cases hn : n.startsWith "[AFK] " <;> simp [hn, isNickEditAction]

theorem filterWave_clearActs (m : Message) :
    (Action.addReaction waveEmoji :: nickEditActs m).filter isWaveAction
      = [Action.addReaction waveEmoji] := by
  rw [List.filter_cons_of_pos]
  · rw [filterWave_nickEditActs]
  · simp [isWaveAction]

theorem filterNotNickEdit_clearActs (m : Message) :
    (Action.addReaction waveEmoji :: nickEditActs m).filter (fun a => !isNickEditAction a)
      = [Action.addReaction waveEmoji] := by
  rw [List.filter_cons_of_pos]
  · rw [filterNotNickEdit_nickEditActs]
  · rfl

theorem wrapLink_injective : Function.Injective wrapLink := by
  intro a b h
  rcases a with ⟨la⟩
  rcases b with ⟨lb⟩
  have hd : ('<' :: la) ++ ['>'] = ('<' :: lb) ++ ['>'] := congrArg String.data h
  have h3 := List.append_cancel_right hd
  have h4 : la = lb := by injection h3
  rw [h4]

/-! ## The claims -/

/-- Claim C4 (confirmed): for the message content `"Fixes foo/bar##42 and ##43"`,
reference extraction (regex matching plus default-org/default-repo resolution
and URL building) yields exactly the URL set
`{https://github.com/foo/bar/pull/42, https://github.com/Pycord-Development/pycord/pull/43}`. -/
theorem claim_C4 :
    (extractLinks "Fixes foo/bar##42 and ##43").toFinset =
      ({"https://github.com/foo/bar/pull/42",
        "https://github.com/Pycord-Development/pycord/pull/43"} : Finset String) := by
  decide

/-- Claim C7 (confirmed): a message from an automated (bot) author produces no
action at all — no reaction, no reply, no nickname edit — leaves the AFK
registry unchanged, and raises nothing. -/
theorem claim_C7 (env : Env) (afk : AfkRegistry) (m : Message)
    (hbot : m.author.bot = true) :
    on_message env afk m = ⟨afk, [], none⟩ := by
  unfold on_message
  rw [if_pos hbot]

/-- Witness for `claim_C7` at a concrete bot-authored message. -/
theorem claim_C7_witness :
    on_message ⟨none, none⟩ [(9, "x")] ⟨⟨1, true, "helper", none⟩, "##1", []⟩
      = ⟨[(9, "x")], [], none⟩ :=
  claim_C7 ⟨none, none⟩ [(9, "x")] ⟨⟨1, true, "helper", none⟩, "##1", []⟩ rfl

/-- Claim C8 (confirmed): reference extraction is a pure function of the
content — in this embedding it is a Lean function, so two runs on identical
content yield identical URL sets. -/
theorem claim_C8 (c1 c2 : String) (h : c1 = c2) :
    (extractLinks c1).toFinset = (extractLinks c2).toFinset := by
  rw [h]

/-- Witness for `claim_C8` at a concrete content. -/
theorem claim_C8_witness :
    (extractLinks "Fixes foo/bar##42 and ##43").toFinset
      = (extractLinks "Fixes foo/bar##42 and ##43").toFinset :=
  claim_C8 "Fixes foo/bar##42 and ##43" "Fixes foo/bar##42 and ##43" rfl

/-- Claim C5 (confirmed): for every message content the link list sent in the
reply is duplicate-free and has at most 15 entries; in particular a content
with 20 distinct `##N` references yields a reply with exactly 15 links. -/
theorem claim_C5 :
    (∀ c : String, (replyLinks c).Nodup ∧ (replyLinks c).length ≤ 15) ∧
      (replyLinks ("##1 ##2 ##3 ##4 ##5 ##6 ##7 ##8 ##9 ##10 ##11 ##12 ##13"
        ++ " ##14 ##15 ##16 ##17 ##18 ##19 ##20")).length = 15 := by
  constructor
  · intro c
    have hbase : (extractLinks c).Nodup := by
      unfold extractLinks
      exact List.Nodup.sublist (List.take_sublist _ _) (List.nodup_dedup _)
    have hlen : (extractLinks c).length ≤ 15 := by
      unfold extractLinks
      rw [List.length_take]
      exact Nat.min_le_left _ _
    simp only [replyLinks]
    by_cases hgt : 2 < (extractLinks c).length
    · rw [if_pos hgt]
      refine ⟨hbase.map wrapLink_injective, ?_⟩
      rw [List.length_map]
      exact hlen
    · rw [if_neg hgt]
      exact ⟨hbase, hlen⟩
  · decide

/-- Claim C6 (confirmed): more than 2 surviving links means every link in the
reply is angle-bracket wrapped, 2 or fewer means none are; a non-empty list is
sent newline-joined as the reply, an empty one sends nothing. -/
theorem claim_C6 (c : String) :
    (2 < (extractLinks c).length → replyLinks c = (extractLinks c).map wrapLink) ∧
    ((extractLinks c).length ≤ 2 → replyLinks c = extractLinks c) ∧
    (replyLinks c ≠ [] → replyMessage c = some (String.intercalate "\n" (replyLinks c))) ∧
    (replyLinks c = [] → replyMessage c = none) := by
  refine ⟨?_, ?_, ?_, ?_⟩
  · intro h
    simp only [replyLinks]
    rw [if_pos h]
  · intro h
    simp only [replyLinks]
    rw [if_neg (by omega)]
  · intro h
    simp only [replyMessage]
    rw [if_neg (by simpa using h)]
  · intro h
    simp only [replyMessage]
    rw [if_pos (by simpa using h)]

/-- Witness for `claim_C6`: three distinct references get wrapped, two do not. -/
theorem claim_C6_witness :
    replyLinks "a##1 b##2 c##3" = (extractLinks "a##1 b##2 c##3").map wrapLink ∧
      replyLinks "a##1 b##2" = extractLinks "a##1 b##2" :=
  ⟨(claim_C6 "a##1 b##2 c##3").1 (by decide),
   (claim_C6 "a##1 b##2").2.1 (by decide)⟩

/-- Claim C2 counterexample: user 5 has an entry in the AFK registry (with the
empty reason string) and is mentioned by a non-automated author, yet the
handler performs no action at all — in particular it sends no
`"... is AFK: ..."` reply for that mention, because the loop's walrus test
`if msg := cache.get(...)` is falsy on the empty string. -/
theorem claim_C2_counterexample :
    afkGet [(5, "")] 5 = some "" ∧
      (on_message ⟨none, none⟩ [(5, "")]
        ⟨⟨1, false, "Alice", none⟩, "hi", [⟨5, false, "Bob", none⟩]⟩).actions = [] := by
  decide

/-- Claim C2 (corrected): for a non-automated author, the replies sent are
exactly one `"{displayName} is AFK: {reason}"` per mention occurrence, in
mention order, for those mentions whose user has an AFK-registry entry with a
NON-EMPTY reason at the time the loop reads the registry (i.e. in the registry
left by the AFK-clear phase, which `(on_message ...).registry` equals). -/
theorem claim_C2_amended (afk : AfkRegistry) (m : Message)
    (hb : m.author.bot = false) :
    ((on_message ⟨none, none⟩ afk m).actions).filterMap sendTextOf =
      m.mentions.filterMap (notifyText (on_message ⟨none, none⟩ afk m).registry) := by
  rcases hg : afkGet afk m.author.id with _ | ⟨reason⟩
  · have hc : afkClearPhase ⟨none, none⟩ afk m = (afk, [], none) :=
      afkClearPhase_noEntry hg
    rw [on_message_ok hb (by rw [hc]), hc]
    simp only [List.nil_append, List.filterMap_append]
    rw [sendTextOf_notifyPhase, sendTextOf_linkPhase, List.append_nil]
  · have hc := afkClearPhase_envOk hg
    rw [on_message_ok hb (by rw [hc]), hc]
    simp only [List.filterMap_append]
    rw [sendTextOf_clearActs, sendTextOf_notifyPhase, sendTextOf_linkPhase,
      List.append_nil, List.nil_append]

/-- Witness for `claim_C2_amended`: one mentioned user is AFK with a non-empty
reason and gets exactly one reply, one is not in the registry. -/
theorem claim_C2_witness :
    ((on_message ⟨none, none⟩ [(5, "lunch")]
        ⟨⟨1, false, "Alice", none⟩, "hi",
          [⟨5, false, "Bob", none⟩, ⟨6, false, "Eve", none⟩]⟩).actions).filterMap
        sendTextOf =
      [⟨5, false, "Bob", none⟩, ⟨6, false, "Eve", none⟩].filterMap
        (notifyText (on_message ⟨none, none⟩ [(5, "lunch")]
          ⟨⟨1, false, "Alice", none⟩, "hi",
            [⟨5, false, "Bob", none⟩, ⟨6, false, "Eve", none⟩]⟩).registry) :=
  claim_C2_amended [(5, "lunch")]
    ⟨⟨1, false, "Alice", none⟩, "hi", [⟨5, false, "Bob", none⟩, ⟨6, false, "Eve", none⟩]⟩
    rfl

/-- Claim C9 (confirmed): the registry operations preserve the invariant of at
most one entry per user — the become-AFK command's insert and the handler's
clear-phase delete both map a duplicate-free registry to a duplicate-free
registry — and absence of an entry is exactly `afkGet = none`. -/
theorem claim_C9 (reg : AfkRegistry) (a : Member) (reason : String) (b : Bool)
    (env : Env) (m : Message) (uid : Nat) (hinv : AfkInv reg) :
    AfkInv (afkCommand reg a reason b).1 ∧
      AfkInv (on_message env reg m).registry ∧
      (afkGet reg uid = none ↔ ∀ p ∈ reg, p.1 ≠ uid) := by
  refine ⟨?_, ?_, afkGet_eq_none_iff reg uid⟩
  · have h1 : (afkCommand reg a reason b).1 = afkInsert reg a.id reason := by
      unfold afkCommand
      by_cases hc : (b && !(a.displayName.startsWith "[AFK] ")) = true
      · rw [if_pos hc]
      · rw [if_neg hc]
    rw [h1]
    exact AfkInv_afkInsert a.id reason hinv
  · rw [on_message_registry]
    by_cases hbot : m.author.bot = true
    · rw [if_pos hbot]
      exact hinv
    · rw [if_neg hbot]
      rcases afkClearPhase_registry env reg m with h | h <;> rw [h]
      · exact hinv
      · exact AfkInv_afkDelete _ hinv

/-- Witness for `claim_C9` at a concrete registry, command call and message. -/
theorem claim_C9_witness :
    AfkInv (afkCommand [(1, "x")] ⟨2, false, "N", none⟩ "r" true).1 ∧
      AfkInv (on_message ⟨none, none⟩ [(1, "x")]
        ⟨⟨1, false, "N", none⟩, "", []⟩).registry ∧
      (afkGet [(1, "x")] 3 = none ↔ ∀ p ∈ [(1, "x")], p.1 ≠ 3) :=
  claim_C9 [(1, "x")] ⟨2, false, "N", none⟩ "r" true ⟨none, none⟩
    ⟨⟨1, false, "N", none⟩, "", []⟩ 3 (by decide)

/-- Claim C3 (confirmed): a non-automated author with an AFK-registry entry
who posts a message has the entry removed and exactly one wave reaction
emitted; any second post by the same author (no new entry in between) emits
no reaction and leaves the registry untouched. -/
theorem claim_C3 (afk : AfkRegistry) (m : Message) (reason : String)
    (hinv : AfkInv afk) (hb : m.author.bot = false)
    (ha : afkGet afk m.author.id = some reason) :
    afkGet (on_message ⟨none, none⟩ afk m).registry m.author.id = none ∧
    ((on_message ⟨none, none⟩ afk m).actions.filter isWaveAction).length = 1 ∧
    ∀ m2 : Message, m2.author.id = m.author.id → m2.author.bot = false →
      (on_message ⟨none, none⟩ (on_message ⟨none, none⟩ afk m).registry m2).registry
          = (on_message ⟨none, none⟩ afk m).registry ∧
      ((on_message ⟨none, none⟩ (on_message ⟨none, none⟩ afk m).registry m2).actions.filter
          isWaveAction).length = 0 := by
  have hc := afkClearPhase_envOk ha
  have hreg : (on_message ⟨none, none⟩ afk m).registry = afkDelete afk m.author.id := by
    rw [on_message_registry, if_neg (by simp [hb]), hc]
  refine ⟨?_, ?_, ?_⟩
  · rw [hreg]
    exact afkGet_afkDelete_self _ hinv
  · rw [on_message_ok hb (by rw [hc]), hc]
    dsimp only
    simp only [List.filter_append, filterWave_clearActs, filterWave_notifyPhase,
      filterWave_linkPhase]
    rfl
  · intro m2 h2id h2b
    have hg2 : afkGet (on_message ⟨none, none⟩ afk m).registry m2.author.id = none := by
      rw [hreg, h2id]
      exact afkGet_afkDelete_self _ hinv
    have hc2 : afkClearPhase ⟨none, none⟩ (on_message ⟨none, none⟩ afk m).registry m2
        = ((on_message ⟨none, none⟩ afk m).registry, [], none) :=
      afkClearPhase_noEntry hg2
    constructor
    · rw [on_message_registry, if_neg (by simp [h2b]), hc2]
    · rw [on_message_ok h2b (by rw [hc2]), hc2]
      dsimp only
      simp only [List.nil_append, List.filter_append, filterWave_notifyPhase,
        filterWave_linkPhase]
      rfl

/-- Witness for `claim_C3`: user 7 is AFK, posts, gets exactly one wave, and a
second post changes nothing further. -/
theorem claim_C3_witness :
    afkGet (on_message ⟨none, none⟩ [(7, "brb")]
        ⟨⟨7, false, "Bob", some "[AFK] Bob"⟩, "", []⟩).registry 7 = none ∧
    ((on_message ⟨none, none⟩ [(7, "brb")]
        ⟨⟨7, false, "Bob", some "[AFK] Bob"⟩, "", []⟩).actions.filter isWaveAction).length
        = 1 ∧
    ((on_message ⟨none, none⟩ (on_message ⟨none, none⟩ [(7, "brb")]
          ⟨⟨7, false, "Bob", some "[AFK] Bob"⟩, "", []⟩).registry
        ⟨⟨7, false, "Bob", none⟩, "back", []⟩).registry
      = (on_message ⟨none, none⟩ [(7, "brb")]
          ⟨⟨7, false, "Bob", some "[AFK] Bob"⟩, "", []⟩).registry ∧
     ((on_message ⟨none, none⟩ (on_message ⟨none, none⟩ [(7, "brb")]
            ⟨⟨7, false, "Bob", some "[AFK] Bob"⟩, "", []⟩).registry
          ⟨⟨7, false, "Bob", none⟩, "back", []⟩).actions.filter isWaveAction).length = 0) := by
  have h := claim_C3 [(7, "brb")] ⟨⟨7, false, "Bob", some "[AFK] Bob"⟩, "", []⟩ "brb"
    (by decide) rfl (by decide)
  exact ⟨h.1, h.2.1, h.2.2 ⟨⟨7, false, "Bob", none⟩, "back", []⟩ rfl rfl⟩

/-- Claim C10 (confirmed): the AFK-clear phase runs before the AFK-notify
phase, so an AFK author who mentions themself gets the wave reaction but no
"is AFK" reply for the self-mention: the replies sent are exactly those for
the NON-self mentions that are AFK in the pre-call registry. -/
theorem claim_C10 (afk : AfkRegistry) (m : Message) (reason : String)
    (hinv : AfkInv afk) (hb : m.author.bot = false)
    (ha : afkGet afk m.author.id = some reason) :
    Action.addReaction waveEmoji ∈ (on_message ⟨none, none⟩ afk m).actions ∧
    (on_message ⟨none, none⟩ afk m).actions.filterMap sendTextOf =
      m.mentions.filterMap (fun mem =>
        if mem.id = m.author.id then none else notifyText afk mem) := by
  have hc := afkClearPhase_envOk ha
  rw [on_message_ok hb (by rw [hc]), hc]
  constructor
  · exact List.mem_append_left _ (List.mem_cons_self _ _)
  · dsimp only
    simp only [List.filterMap_append, sendTextOf_clearActs, sendTextOf_notifyPhase,
      sendTextOf_linkPhase, List.append_nil, List.nil_append]
    apply List.filterMap_congr
    intro mem hmem
    by_cases hid : mem.id = m.author.id
    · rw [if_pos hid]
      unfold notifyText
      rw [hid, afkGet_afkDelete_self _ hinv]
    · rw [if_neg hid]
      unfold notifyText
      rw [afkGet_afkDelete_ne hid]

/-- Witness for `claim_C10`: AFK user 3 mentions themself and a different AFK
user 4; only user 4 produces a reply, and the wave reaction is present. -/
theorem claim_C10_witness :
    Action.addReaction waveEmoji ∈ (on_message ⟨none, none⟩ [(3, "zz"), (4, "yy")]
        ⟨⟨3, false, "A", none⟩, "", [⟨3, false, "A", none⟩, ⟨4, false, "B", none⟩]⟩).actions ∧
    (on_message ⟨none, none⟩ [(3, "zz"), (4, "yy")]
        ⟨⟨3, false, "A", none⟩, "", [⟨3, false, "A", none⟩, ⟨4, false, "B", none⟩]⟩).actions.filterMap
        sendTextOf =
      [⟨3, false, "A", none⟩, ⟨4, false, "B", none⟩].filterMap (fun mem =>
        if mem.id = (3 : Nat) then none else notifyText [(3, "zz"), (4, "yy")] mem) :=
  claim_C10 [(3, "zz"), (4, "yy")]
    ⟨⟨3, false, "A", none⟩, "", [⟨3, false, "A", none⟩, ⟨4, false, "B", none⟩]⟩ "zz"
    (by decide) rfl (by decide)

/-- Claim C1 counterexample: the wave reaction is a cosmetic action of the
AFK-clear phase, yet an HTTPException raised by it is NOT caught: it
propagates out of `on_message` and the AFK-notify and link-extraction phases
never run — user 5 is AFK and mentioned and the content carries a reference,
but no action at all is performed. -/
theorem claim_C1_counterexample :
    afkGet [(1, "brb"), (5, "gone")] 5 = some "gone" ∧
      replyMessage "see ##7" ≠ none ∧
      on_message ⟨some ExcKind.httpException, none⟩ [(1, "brb"), (5, "gone")]
          ⟨⟨1, false, "Alice", none⟩, "see ##7", [⟨5, false, "Bob", none⟩]⟩
        = ⟨[(5, "gone")], [], some ExcKind.httpException⟩ := by
  refine ⟨by decide, by decide, by decide⟩

/-- Claim C1 (corrected): only the nickname edit is guarded, and only against
`HTTPException`: with the nickname edit failing that way, `on_message` raises
nothing, produces the same registry as the error-free run, and performs the
same actions except the nickname edit itself — in particular the wave
reaction already emitted and the AFK-notify and link phases are unaffected.
(Errors of the wave reaction, by contrast, propagate: see the
counterexample.) -/
theorem claim_C1_amended (afk : AfkRegistry) (m : Message)
    (hb : m.author.bot = false) :
    (on_message ⟨none, some ExcKind.httpException⟩ afk m).uncaught = none ∧
    (on_message ⟨none, some ExcKind.httpException⟩ afk m).registry
        = (on_message ⟨none, none⟩ afk m).registry ∧
    (on_message ⟨none, some ExcKind.httpException⟩ afk m).actions
        = (on_message ⟨none, none⟩ afk m).actions.filter (fun a => !isNickEditAction a) := by
  rcases hg : afkGet afk m.author.id with _ | ⟨reason⟩
  · have hcH : afkClearPhase ⟨none, some ExcKind.httpException⟩ afk m = (afk, [], none) :=
      afkClearPhase_noEntry hg
    have hc0 : afkClearPhase ⟨none, none⟩ afk m = (afk, [], none) :=
      afkClearPhase_noEntry hg
    rw [on_message_ok hb (by rw [hcH]), on_message_ok hb (by rw [hc0]), hcH, hc0]
    refine ⟨rfl, rfl, ?_⟩
    dsimp only
    simp only [List.nil_append, List.filter_append, filterNotNickEdit_notifyPhase,
      filterNotNickEdit_linkPhase]
  · have hcH := afkClearPhase_envHttp hg
    have hc0 := afkClearPhase_envOk hg
    rw [on_message_ok hb (by rw [hcH]), on_message_ok hb (by rw [hc0]), hcH, hc0]
    refine ⟨rfl, rfl, ?_⟩
    dsimp only
    simp only [List.filter_append, filterNotNickEdit_clearActs,
      filterNotNickEdit_notifyPhase, filterNotNickEdit_linkPhase]

/-- Witness for `claim_C1_amended`: AFK user 4 with an "[AFK] " nick posts
while the nickname edit fails with HTTPException; nothing propagates, the wave
reaction stays, only the nickname edit disappears. -/
theorem claim_C1_witness :
    (on_message ⟨none, some ExcKind.httpException⟩ [(4, "gone")]
        ⟨⟨4, false, "Ann", some "[AFK] Ann"⟩, "see ##7", [⟨4, false, "Ann", none⟩]⟩).uncaught
        = none ∧
    (on_message ⟨none, some ExcKind.httpException⟩ [(4, "gone")]
        ⟨⟨4, false, "Ann", some "[AFK] Ann"⟩, "see ##7", [⟨4, false, "Ann", none⟩]⟩).registry
        = (on_message ⟨none, none⟩ [(4, "gone")]
          ⟨⟨4, false, "Ann", some "[AFK] Ann"⟩, "see ##7", [⟨4, false, "Ann", none⟩]⟩).registry ∧
    (on_message ⟨none, some ExcKind.httpException⟩ [(4, "gone")]
        ⟨⟨4, false, "Ann", some "[AFK] Ann"⟩, "see ##7", [⟨4, false, "Ann", none⟩]⟩).actions
        = (on_message ⟨none, none⟩ [(4, "gone")]
          ⟨⟨4, false, "Ann", some "[AFK] Ann"⟩, "see ##7", [⟨4, false, "Ann", none⟩]⟩).actions.filter
          (fun a => !isNickEditAction a) :=
  claim_C1_amended [(4, "gone")]
    ⟨⟨4, false, "Ann", some "[AFK] Ann"⟩, "see ##7", [⟨4, false, "Ann", none⟩]⟩ rfl

end Square2
